import Mathlib

/-!
Verification of the candid identity/discharge server core against its
specification.  The development shallowly embeds:

* the identity store (`Store.UpsertIdentity`, `Store.ensureIndexes`) over a
  list of identity records, with the document store's conditional upsert and
  unique-index semantics;
* the SHA-1 based namespace-UUID derivation used by `UpsertIdentity`
  (modelling the external go-uuid library, bit for bit);
* the in-memory identity-provider test context (`TestContext.UpdateUser`);
* the macaroon cookie transport codec (`encodeCookie` / `decodeCookie`);
* the IDP context login callbacks (`idpHandler.LoginSuccess`,
  `idpHandler.LoginFailure`) over an explicit rendezvous state.
-/

namespace Candid

/-! ### SHA-1 (models the `crypto/sha1` hash used by `uuid.NewSHA1`) -/

/-- `2^32`, the word modulus for SHA-1 arithmetic. -/
def w32 : Nat := 4294967296

/-- Rotate a 32-bit word left by `n` bits. -/
def rotl32 (n x : Nat) : Nat := ((x <<< n) % w32) ||| (x >>> (32 - n))

/-- The SHA-1 round function `f` for round `i`. -/
def sha1F (i b c d : Nat) : Nat :=
  if i < 20 then (b &&& c) ||| ((4294967295 ^^^ b) &&& d)
  else if i < 40 then b ^^^ c ^^^ d
  else if i < 60 then (b &&& c) ||| (b &&& d) ||| (c &&& d)
  else b ^^^ c ^^^ d

/-- The SHA-1 round constant `k` for round `i`. -/
def sha1K (i : Nat) : Nat :=
  if i < 20 then 1518500249
  else if i < 40 then 1859775393
  else if i < 60 then 2400959708
  else 3395469782

/-- Big-endian 32-bit word from four bytes. -/
def word32BE (b0 b1 b2 b3 : Nat) : Nat := ((b0 * 256 + b1) * 256 + b2) * 256 + b3

/-- Group a byte list into big-endian 32-bit words. -/
def toWords : List Nat → List Nat
  | b0 :: b1 :: b2 :: b3 :: rest => word32BE b0 b1 b2 b3 :: toWords rest
  | _ => []

/-- Extend the 16 message words of a block to the 80-word SHA-1 schedule. -/
def sha1Schedule (w0 : Array Nat) : Array Nat :=
  (List.range 64).foldl (fun w j =>
    let i := j + 16
    w.push (rotl32 1 ((w.getD (i - 3) 0) ^^^ (w.getD (i - 8) 0) ^^^
      (w.getD (i - 14) 0) ^^^ (w.getD (i - 16) 0)))) w0

/-- One SHA-1 compression step over a 64-byte block. -/
def sha1Compress (h : Nat × Nat × Nat × Nat × Nat) (block : List Nat) :
    Nat × Nat × Nat × Nat × Nat :=
  let w := sha1Schedule (toWords block).toArray
  let (h0, h1, h2, h3, h4) := h
  let s := (List.range 80).foldl (fun s i =>
    let (a, b, c, d, e) := s
    let temp := (rotl32 5 a + sha1F i b c d + e + sha1K i + w.getD i 0) % w32
    (temp, a, rotl32 30 b, c, d)) (h0, h1, h2, h3, h4)
  ((h0 + s.1) % w32, (h1 + s.2.1) % w32, (h2 + s.2.2.1) % w32,
    (h3 + s.2.2.2.1) % w32, (h4 + s.2.2.2.2) % w32)

/-- Fold the compression function over all 64-byte blocks. -/
def sha1Blocks (h : Nat × Nat × Nat × Nat × Nat) : List Nat → Nat × Nat × Nat × Nat × Nat
  | [] => h
  | x :: xs => sha1Blocks (sha1Compress h ((x :: xs).take 64)) ((x :: xs).drop 64)
termination_by l => l.length
decreasing_by simp [List.drop]; omega

/-- Big-endian 8-byte encoding of a length value. -/
def be8 (n : Nat) : List Nat := (List.range 8).map (fun i => (n >>> (8 * (7 - i))) % 256)

/-- Big-endian 4-byte encoding of a 32-bit word. -/
def be4 (n : Nat) : List Nat := (List.range 4).map (fun i => (n >>> (8 * (3 - i))) % 256)

/-- SHA-1 padding: `0x80`, zeros to 56 mod 64, then the 64-bit bit length. -/
def sha1Pad (msg : List Nat) : List Nat :=
  msg ++ [128] ++ List.replicate ((119 - msg.length % 64) % 64) 0 ++ be8 (msg.length * 8)

/-- The SHA-1 digest (20 bytes) of a byte sequence. -/
def sha1 (msg : List Nat) : List Nat :=
  let h := sha1Blocks (1732584193, 4023233417, 2562383102, 271733878, 3285377520)
    (sha1Pad msg)
  be4 h.1 ++ be4 h.2.1 ++ be4 h.2.2.1 ++ be4 h.2.2.2.1 ++ be4 h.2.2.2.2

/-! ### Namespace UUIDs (models `uuid.NewSHA1` / `uuid.Parse` from go-uuid) -/

/-- The bytes of `IdentityNamespace`
(`uuid.Parse("685c2eaa-9721-11e4-b717-a7bf1a250a86")` in the store package). -/
def identityNamespaceUUID : List Nat :=
  [104, 92, 46, 170, 151, 33, 17, 228, 183, 23, 167, 191, 26, 37, 10, 134]

/-- Stamp the UUID version (high nibble of byte 6) and RFC-4122 variant
(top bits of byte 8) onto a 16-byte value, as `uuid.NewHash` does. -/
def setVersionVariant (u : List Nat) (version : Nat) : List Nat :=
  u.mapIdx (fun i b =>
    if i = 6 then (b &&& 15) ||| ((version &&& 15) <<< 4)
    else if i = 8 then (b &&& 63) ||| 128
    else b)

/-- `uuid.NewSHA1 space data`: SHA-1 of `space ++ data`, truncated to 16
bytes, stamped as a version-5 UUID. -/
def uuidNewSHA1 (space data : List Nat) : List Nat :=
  setVersionVariant ((sha1 (space ++ data)).take 16) 5

/-- Lower-case hex digit. -/
def hexDigit (n : Nat) : Char := if n < 10 then Char.ofNat (48 + n) else Char.ofNat (87 + n)

/-- Two lower-case hex digits of a byte. -/
def hexByte (b : Nat) : List Char := [hexDigit (b / 16), hexDigit (b % 16)]

/-- Hex rendering of a byte sequence. -/
def hexBytes (bs : List Nat) : List Char := (bs.map hexByte).flatten

/-- `UUID.String()`: canonical 8-4-4-4-12 textual form. -/
def uuidToString (u : List Nat) : String :=
  String.mk (hexBytes (u.take 4) ++ '-' :: hexBytes ((u.drop 4).take 2) ++
    '-' :: hexBytes ((u.drop 6).take 2) ++ '-' :: hexBytes ((u.drop 8).take 2) ++
    '-' :: hexBytes (u.drop 10))

/-- The UTF-8 bytes of a string, as Go's `[]byte(s)` conversion. -/
def strBytes (s : String) : List Nat := s.toUTF8.toList.map UInt8.toNat

/-- The UUID `Store.UpsertIdentity` derives for a username:
`uuid.NewSHA1(IdentityNamespace, []byte(doc.UserName)).String()`. -/
def uuidFromUserName (name : String) : String :=
  uuidToString (uuidNewSHA1 identityNamespaceUUID (strBytes name))

/-! ### The identity store (`internal/store`) -/

/-- An identity record (`mongodoc.Identity`; the document type is not under
src/, its fields are those listed in the spec's data model). -/
structure Identity where
  UUID : String := ""
  UserName : String
  ExternalID : String
  Email : String := ""
  FullName : String := ""
  Groups : List String := []
  Owner : String := ""
  LastLogin : Nat := 0
  LastDischarge : Nat := 0
deriving DecidableEq

/-- An index declaration (`mgo.Index`): key fields and the unique flag. -/
structure IndexSpec where
  Key : List String
  Unique : Bool
deriving DecidableEq

/-- The store state: the declared indexes and the identities collection. -/
structure Store where
  indexes : List IndexSpec := []
  identities : List Identity := []
deriving DecidableEq

/-- `Store.ensureIndexes`: installs the unique `username` and `external_id`
indexes on the identities collection. -/
def ensureIndexes (s : Store) : Store :=
  { s with indexes := [⟨["username"], true⟩, ⟨["external_id"], true⟩] }

/-- `store.New`: builds a store and ensures its indexes. -/
def storeNew : Store := ensureIndexes {}

/-- Error classification returned by the store (`params.ErrAlreadyExists`
after the duplicate-key re-classification in `UpsertIdentity`). -/
inductive StoreErr
  | alreadyExists
deriving DecidableEq

/-- `doc` with its `UUID` derived from `UserName`, as the first line of
`Store.UpsertIdentity` does. -/
def deriveUUID (doc : Identity) : Identity :=
  { doc with UUID := uuidFromUserName doc.UserName }

/-- The document store's conditional update for the selector
`{username: doc.UserName, external_id: doc.ExternalID}`: replace the first
record matching both fields, or report `none` when no record matches. -/
def upsertFind (doc : Identity) : List Identity → Option (List Identity)
  | [] => none
  | r :: rest =>
    if r.UserName = doc.UserName ∧ r.ExternalID = doc.ExternalID then some (doc :: rest)
    else (upsertFind doc rest).map (r :: ·)

/-- Whether inserting `doc` would trip one of the two unique indexes at
record `r`. -/
def collides (doc r : Identity) : Bool :=
  r.UserName == doc.UserName || r.ExternalID == doc.ExternalID

/-- `Store.UpsertIdentity`: derive the UUID from the username, then upsert on
the `(username, external_id)` selector.  A miss inserts the document, and a
duplicate-key failure from either unique index is re-classified as
`AlreadyExists`, leaving the collection unchanged. -/
def upsertIdentity (doc : Identity) (ids : List Identity) :
    Option StoreErr × List Identity :=
  let doc' := deriveUUID doc
  match upsertFind doc' ids with
  | some ids' => (none, ids')
  | none =>
    if ids.any (collides doc') then (some .alreadyExists, ids)
    else (none, ids ++ [doc'])

/-- The store invariant: no two identity records share a `UserName` and no
two share an `ExternalID`. -/
def uniqueIdentities (ids : List Identity) : Prop :=
  ids.Pairwise (fun a b => a.UserName ≠ b.UserName ∧ a.ExternalID ≠ b.ExternalID)

/-! ### The idptest in-memory context (`TestContext.UpdateUser`) -/

/-- A user document (`params.User`, fields relevant to the test context). -/
structure User where
  Username : String
  ExternalID : String
  FullName : String := ""
  Email : String := ""
  IDPGroups : List String := []
  Owner : String := ""
deriving DecidableEq

/-- Errors surfaced by `TestContext.UpdateUser`: the two `AlreadyExists`
classifications produced by its loop, and the injected `UpdateUserError`. -/
inductive UpdateErr
  | alreadyExistsUsername (u : String)
  | alreadyExistsExternalId (e : String)
  | injected
deriving DecidableEq

/-- The scan in `TestContext.UpdateUser`: walk the stored users; on a
`Username` match with equal `ExternalID` replace that entry; on a mismatched
match of either field report `AlreadyExists`; append after a full scan. -/
def updateUserFind (user : User) : List User → Except UpdateErr (List User)
  | [] => .ok [user]
  | u :: us =>
    if u.Username = user.Username then
      if u.ExternalID = user.ExternalID then .ok (user :: us)
      else .error (.alreadyExistsUsername user.Username)
    else if u.ExternalID = user.ExternalID then .error (.alreadyExistsExternalId user.ExternalID)
    else (updateUserFind user us).map (u :: ·)

/-- `TestContext.UpdateUser` over the `users` slice.  The method returns an
error before any mutation of `c.users`, so the error branches leave the list
as it was.  `injectErr` is the `UpdateUserError` field. -/
def updateUser (injectErr : Bool) (user : User) (users : List User) :
    Option UpdateErr × List User :=
  if injectErr then (some .injected, users)
  else
    match updateUserFind user users with
    | .ok l => (none, l)
    | .error e => (some e, users)

/-! ### The macaroon cookie codec (debug package)

`encodeCookie` and `decodeCookie` themselves are not under src/ — only their
exported test wrappers are — so the codec below is modelled from the spec
(§4.2): serialize the payload, seal it with the server key pair using
idealized public-key authenticated encryption, and emit a transport sequence
of symbols. -/

/-- `bakery.KeyPair`: the server's public/private key pair. -/
structure KeyPair where
  Public : Nat
  Private : Nat
deriving DecidableEq

/-- Modelled from the spec: the cookie payload, "a tuple
(macaroon-or-slice-of-macaroons, metadata)" (§3), as the debug package's
`cookie` value with an expiry, an id and the macaroon slice. -/
structure cookie where
  ExpireTime : Nat
  ID : String
  Macaroons : List String
deriving DecidableEq

/-- Length-prefixed serialization of a string's characters. -/
def serString (s : String) : List Nat := s.length :: s.data.map Char.toNat

/-- Split off the first `n` symbols, or fail when fewer remain. -/
def takeN : Nat → List Nat → Option (List Nat × List Nat)
  | 0, l => some ([], l)
  | _ + 1, [] => none
  | n + 1, x :: l => (takeN n l).map (fun p => (x :: p.1, p.2))

/-- Parse one length-prefixed string, returning it and the unconsumed rest. -/
def parseString (l : List Nat) : Option (String × List Nat) :=
  match l with
  | [] => none
  | n :: rest =>
    match takeN n rest with
    | none => none
    | some (cs, rest') =>
      if cs.all (fun m => decide m.isValidChar) then
        some (String.mk (cs.map Char.ofNat), rest')
      else none

/-- Count-prefixed serialization of a string list. -/
def serStrings (xs : List String) : List Nat := xs.length :: (xs.map serString).flatten

/-- Parse `n` length-prefixed strings. -/
def parseStringsN : Nat → List Nat → Option (List String × List Nat)
  | 0, l => some ([], l)
  | n + 1, l =>
    (parseString l).bind fun p =>
      (parseStringsN n p.2).map fun q => (p.1 :: q.1, q.2)

/-- Parse a count-prefixed string list. -/
def parseStringList (l : List Nat) : Option (List String × List Nat) :=
  match l with
  | [] => none
  | n :: rest => parseStringsN n rest

/-- Modelled from the spec: the codec "serializes the payload" (§4.2). -/
def serCookie (c : cookie) : List Nat :=
  c.ExpireTime :: serString c.ID ++ serStrings c.Macaroons

/-- Inverse of `serCookie`; fails on any malformed structure. -/
def parseCookie (l : List Nat) : Option (cookie × List Nat) :=
  match l with
  | [] => none
  | e :: rest =>
    (parseString rest).bind fun p =>
      (parseStringList p.2).map fun q => (⟨e, p.1, q.1⟩, q.2)

/-- Modelled from the spec: the authentication tag of idealized public-key
authenticated encryption — it depends on the private key and every symbol of
the message, so holders of a different key pair can never open the box. -/
def macTag (priv : Nat) (msg : List Nat) : Nat :=
  priv + msg.foldl (fun a b => a * 31 + b + 1) 7

/-- Modelled from the spec: seal a message with the key pair ("only holders
of the matching private key can decrypt; any bit flip must be detectable",
§4.2). -/
def boxSeal (k : KeyPair) (msg : List Nat) : List Nat :=
  k.Public :: macTag k.Private msg :: msg

/-- Modelled from the spec: open a sealed box, failing unless the key pair
matches the one that sealed it and the tag authenticates the message. -/
def boxOpen (k : KeyPair) (ct : List Nat) : Option (List Nat) :=
  match ct with
  | pub :: tag :: msg =>
    if pub = k.Public ∧ tag = macTag k.Private msg then some msg else none
  | _ => none

/-- The `BadCookie` classification of decode failures (§7). -/
inductive CookieErr
  | badCookie
deriving DecidableEq

/-- Modelled from the spec: `encodeCookie` — serialize the payload and seal
it with the server's key pair into a transport sequence (§4.2).  The
function body is not under src/; only its exported wrapper `EncodeCookie`
is. -/
def encodeCookie (k : KeyPair) (c : cookie) : List Nat :=
  boxSeal k (serCookie c)

/-- Modelled from the spec: `decodeCookie` — the inverse operation, failing
with `BadCookie` when the input is malformed, fails authentication, or fails
to parse (§4.2).  The function body is not under src/; only its exported
wrapper `DecodeCookie` is. -/
def decodeCookie (k : KeyPair) (s : List Nat) : Except CookieErr cookie :=
  match boxOpen k s with
  | none => .error .badCookie
  | some msg =>
    match parseCookie msg with
    | some (c, []) => .ok c
    | _ => .error .badCookie

/-! ### The IDP context callbacks (`internal/v1/idp.go`)

`idpHandler.LoginSuccess` and `idpHandler.LoginFailure` are embedded as
state-passing functions.  The wait token (`waitid` form value) is a
parameter; the rendezvous `place`, the bakery minting service and
`store.UpdateIdentity` are collaborators held in the explicit state. -/

/-- `checkers.Caveat` (external bakery library): a condition and a
third-party location. -/
structure Caveat where
  Condition : String
  Location : String := ""
deriving DecidableEq

/-- A macaroon as minted by `Service.NewMacaroon`: the caveats attached at
mint time. -/
structure Macaroon where
  Caveats : List Caveat
deriving DecidableEq

/-- `Service.NewMacaroon(version, cavs)` (external bakery library): mints a
macaroon carrying exactly the given caveats. -/
def NewMacaroon (cavs : List Caveat) : Macaroon := ⟨cavs⟩

/-- `loginInfo`: the terminal value delivered to a rendezvous — the identity
macaroon slice on success, or an error. -/
structure LoginInfo where
  IdentityMacaroon : List Macaroon := []
  Error : Option String := none
deriving DecidableEq

/-- A rendezvous entry: pending, or completed with a `loginInfo`. -/
inductive RendezvousState
  | pending
  | done (info : LoginInfo)
deriving DecidableEq

/-- Modelled from the spec: `Place.Done` (internal/store, not under src/) —
writes the terminal value of a pending entry, and fails with `NotFound`
(`none`) when the token is unknown or already consumed (§4.4). -/
def placeDone (t : String) (info : LoginInfo) (p : String → Option RendezvousState) :
    Option (String → Option RendezvousState) :=
  match p t with
  | some .pending => some (fun t2 => if t2 = t then some (.done info) else p t2)
  | _ => none

/-- The request-scoped state seen by the `idpHandler` callbacks: the
rendezvous place, failure oracles for the two fallible collaborators, the
identities collection, the current time and the rendered HTTP responses. -/
structure IdpState where
  place : String → Option RendezvousState
  mintFails : Bool := false
  updateIdentityFails : Bool := false
  identities : List Identity := []
  now : Nat := 0
  responses : List String := []

/-- `store.UpdateIdentity(username, {$set: {lastlogin: now}})` (not under
src/): bumps the record's last-login timestamp; fails when the store errors
or the username is absent. -/
def updateIdentity (username : String) (st : IdpState) : Option IdpState :=
  if st.updateIdentityFails then none
  else if st.identities.any (fun r => r.UserName == username) then
    some { st with identities := st.identities.map (fun r =>
      if r.UserName = username then { r with LastLogin := st.now } else r) }
  else none

/-- The rendezvous-completion step of `idpHandler.LoginFailure`: when a wait
token is present, call `place.Done` with the error and discard its result. -/
def loginFailureDone (waitId err : String) (st : IdpState) : IdpState :=
  if waitId = "" then st
  else
    match placeDone waitId { IdentityMacaroon := [], Error := some err } st.place with
    | some p => { st with place := p }
    | none => st

/-- `idpHandler.LoginFailure`: read the wait token; when one is present call
`place.Done` with the error (its result is discarded), then write the error
as the HTTP response. -/
def loginFailure (waitId err : String) (st : IdpState) : IdpState :=
  let st1 := loginFailureDone waitId err st
  { st1 with responses := st1.responses ++ [err] }

/-- `idpHandler.LoginSuccess`: mint a macaroon with the given caveats; on a
minting error fall back to `LoginFailure` and report `false`.  When a wait
token is present complete the rendezvous with the macaroon, falling back to
`LoginFailure` when that fails.  Finally bump the last-login timestamp,
ignoring the result, and report `true`. -/
def loginSuccess (waitId username : String) (cavs : List Caveat) (st : IdpState) :
    Bool × IdpState :=
  if st.mintFails then (false, loginFailure waitId "cannot mint identity macaroon" st)
  else
    let m := NewMacaroon cavs
    if waitId = "" then
      (true, (updateIdentity username st).getD st)
    else
      match placeDone waitId { IdentityMacaroon := [m], Error := none } st.place with
      | none => (false, loginFailure waitId "cannot complete rendezvous" st)
      | some p =>
        let st1 := { st with place := p }
        (true, (updateIdentity username st1).getD st1)

/-- The declared-username caveat condition attached by the login helpers
(`checkers.DeclaredCaveat("username", u)` in the external bakery library). -/
def declaredCondition : String := "declared username "

/-- Modelled from the spec: the declared-caveat binding the authenticated
username (§4.3 minting rule). -/
def declaredUserCaveat (u : String) : Caveat := ⟨declaredCondition ++ u, ""⟩

/-- Modelled from the spec: the expiry caveat
(`checkers.TimeBeforeCaveat`). -/
def timeBeforeCaveat (t : Nat) : Caveat := ⟨"time-before " ++ toString t, ""⟩

/-- Modelled from the spec: the login helper that calls `LoginSuccess` is
not under src/; per the minting rule (§4.3) it always attaches the declared
username caveat and an expiry caveat ahead of any extra caveats. -/
def loginUser (waitId username : String) (expiry : Nat) (extra : List Caveat)
    (st : IdpState) : Bool × IdpState :=
  loginSuccess waitId username
    (declaredUserCaveat username :: timeBeforeCaveat expiry :: extra) st

/-- The declared username carried by a macaroon, read off its first
declared-username caveat. -/
def declaredUsername (m : Macaroon) : Option String :=
  (m.Caveats.find? (fun c => declaredCondition.data.isPrefixOf c.Condition.data)).map
    (fun c => String.mk (c.Condition.data.drop declaredCondition.length))

/-- Whether a macaroon carries an expiry (`time-before`) caveat. -/
def hasExpiryCaveat (m : Macaroon) : Bool :=
  m.Caveats.any (fun c => ("time-before ").data.isPrefixOf c.Condition.data)

/-! ### Lemmas about the store upsert -/

@[simp] theorem deriveUUID_UserName (doc : Identity) :
    (deriveUUID doc).UserName = doc.UserName := by
  cases doc
  rfl

@[simp] theorem deriveUUID_ExternalID (doc : Identity) :
    (deriveUUID doc).ExternalID = doc.ExternalID := by
  cases doc
  rfl

theorem upsertFind_eq_none {doc : Identity} {ids : List Identity}
    (h : ∀ r ∈ ids, ¬(r.UserName = doc.UserName ∧ r.ExternalID = doc.ExternalID)) :
    upsertFind doc ids = none := by
  induction ids with
  | nil => rfl
  | cons r rest ih =>
    rw [upsertFind, if_neg (h r (List.mem_cons_self r rest)),
      ih (fun x hx => h x (List.mem_cons_of_mem r hx))]
    rfl

theorem upsertFind_replace (doc r : Identity) (l1 l2 : List Identity)
    (h1 : ∀ x ∈ l1, ¬(x.UserName = doc.UserName ∧ x.ExternalID = doc.ExternalID))
    (hr : r.UserName = doc.UserName ∧ r.ExternalID = doc.ExternalID) :
    upsertFind doc (l1 ++ r :: l2) = some (l1 ++ doc :: l2) := by
  induction l1 with
  | nil => simp [upsertFind, if_pos hr]
  | cons x l1 ih =>
    simp only [List.cons_append, upsertFind, List.append_eq]
    rw [if_neg (h1 x (List.mem_cons_self x l1)),
      ih (fun y hy => h1 y (List.mem_cons_of_mem x hy))]
    rfl

theorem upsertFind_shape {doc : Identity} {ids l : List Identity}
    (h : upsertFind doc ids = some l) :
    ∃ l1 r l2, ids = l1 ++ r :: l2 ∧ l = l1 ++ doc :: l2 ∧
      r.UserName = doc.UserName ∧ r.ExternalID = doc.ExternalID := by
  induction ids generalizing l with
  | nil => simp [upsertFind] at h
  | cons r rest ih =>
    rw [upsertFind] at h
    by_cases hc : r.UserName = doc.UserName ∧ r.ExternalID = doc.ExternalID
    · rw [if_pos hc] at h
      refine ⟨[], r, rest, rfl, ?_, hc.1, hc.2⟩
      simpa using (Option.some.inj h).symm
    · rw [if_neg hc] at h
      match hrec : upsertFind doc rest with
      | none => rw [hrec] at h; simp at h
      | some l' =>
        rw [hrec] at h
        obtain ⟨l1, r', l2, e1, e2, e3, e4⟩ := ih hrec
        refine ⟨r :: l1, r', l2, by simp [e1], ?_, e3, e4⟩
        have : l = r :: l' := by simpa using (Option.some.inj h).symm
        simp [this, e2]

theorem pairwise_replace {l1 l2 : List Identity} {r d : Identity}
    (hu : d.UserName = r.UserName) (he : d.ExternalID = r.ExternalID)
    (h : uniqueIdentities (l1 ++ r :: l2)) : uniqueIdentities (l1 ++ d :: l2) := by
  unfold uniqueIdentities at h ⊢
  rw [List.pairwise_append] at h ⊢
  obtain ⟨h1, h2, h3⟩ := h
  rw [List.pairwise_cons] at h2 ⊢
  refine ⟨h1, ⟨fun y hy => ?_, h2.2⟩, fun a ha b hb => ?_⟩
  · rw [hu, he]; exact h2.1 y hy
  · rcases List.mem_cons.mp hb with hb' | hb'
    · subst hb'
      have := h3 a ha r (List.mem_cons_self r l2)
      rw [hu, he]; exact this
    · exact h3 a ha b (List.mem_cons_of_mem r hb')

/-- C1: `UpsertIdentity(doc)` — a record matching `doc` on both `UserName`
and `ExternalID` is updated in place with no new record created; when
neither field matches any record, a new record is inserted; and when
`UserName` or `ExternalID` collides with a different record the call fails
with the `AlreadyExists` classification, leaving the collection unchanged. -/
theorem upsertIdentity_cases (doc : Identity) (ids : List Identity)
    (hinv : uniqueIdentities ids) :
    (∀ l1 r l2, ids = l1 ++ r :: l2 → r.UserName = doc.UserName →
        r.ExternalID = doc.ExternalID →
        upsertIdentity doc ids = (none, l1 ++ deriveUUID doc :: l2))
  ∧ ((∀ r ∈ ids, r.UserName ≠ doc.UserName ∧ r.ExternalID ≠ doc.ExternalID) →
        upsertIdentity doc ids = (none, ids ++ [deriveUUID doc]))
  ∧ ((∃ r ∈ ids, (r.UserName = doc.UserName ∧ r.ExternalID ≠ doc.ExternalID) ∨
        (r.ExternalID = doc.ExternalID ∧ r.UserName ≠ doc.UserName)) →
        upsertIdentity doc ids = (some .alreadyExists, ids)) := by
  refine ⟨?_, ?_, ?_⟩
  · intro l1 r l2 hids hu he
    subst hids
    have h1 : ∀ x ∈ l1, ¬(x.UserName = (deriveUUID doc).UserName ∧
        x.ExternalID = (deriveUUID doc).ExternalID) := by
      intro x hx hcontra
      have hpair : uniqueIdentities (l1 ++ r :: l2) := hinv
      rw [uniqueIdentities, List.pairwise_append] at hpair
      have := hpair.2.2 x hx r (List.mem_cons_self r l2)
      exact this.1 (by rw [hcontra.1, deriveUUID_UserName, ← hu])
    have hfind := upsertFind_replace (deriveUUID doc) r l1 l2 h1
      ⟨by simp [hu], by simp [he]⟩
    simp only [upsertIdentity, hfind]
  · intro h
    have hfind : upsertFind (deriveUUID doc) ids = none :=
      upsertFind_eq_none (fun r hr hc => (h r hr).1 (by simpa using hc.1))
    have hany : ids.any (collides (deriveUUID doc)) = false := by
      rw [← Bool.not_eq_true, List.any_eq_true]
      rintro ⟨r, hr, hcol⟩
      simp only [collides, deriveUUID_UserName, deriveUUID_ExternalID,
        Bool.or_eq_true, beq_iff_eq] at hcol
      rcases hcol with hcol | hcol
      · exact (h r hr).1 hcol
      · exact (h r hr).2 hcol
    simp only [upsertIdentity, hfind, hany, Bool.false_eq_true, if_false]
  · rintro ⟨r, hr, hor⟩
    have hsymm : Symmetric (fun a b : Identity =>
        a.UserName ≠ b.UserName ∧ a.ExternalID ≠ b.ExternalID) :=
      fun a b hab => ⟨Ne.symm hab.1, Ne.symm hab.2⟩
    have hfind : upsertFind (deriveUUID doc) ids = none := by
      apply upsertFind_eq_none
      intro r' hr' hc
      simp only [deriveUUID_UserName, deriveUUID_ExternalID] at hc
      by_cases heq : r = r'
      · subst heq
        rcases hor with ⟨_, hne⟩ | ⟨_, hne⟩
        · exact hne hc.2
        · exact hne hc.1
      · have hdiff := hinv.forall hsymm hr hr' heq
        rcases hor with ⟨hu, _⟩ | ⟨he, _⟩
        · exact hdiff.1 (by rw [hu, hc.1])
        · exact hdiff.2 (by rw [he, hc.2])
    have hany : ids.any (collides (deriveUUID doc)) = true := by
      rw [List.any_eq_true]
      refine ⟨r, hr, ?_⟩
      simp only [collides, deriveUUID_UserName, deriveUUID_ExternalID,
        Bool.or_eq_true, beq_iff_eq]
      rcases hor with ⟨hu, _⟩ | ⟨he, _⟩
      · exact Or.inl hu
      · exact Or.inr he
    simp only [upsertIdentity, hfind, hany, if_true]

/-- C7: the unique `username` and `external_id` indexes are installed at
store construction; under them the upsert preserves the invariant that no
two records share a `UserName` or an `ExternalID`, and an upsert that would
violate it fails with the conflict classification without creating or
overwriting a record. -/
theorem upsertIdentity_invariant (doc : Identity) (ids : List Identity)
    (hinv : uniqueIdentities ids) :
    storeNew.indexes = [⟨["username"], true⟩, ⟨["external_id"], true⟩]
  ∧ uniqueIdentities (upsertIdentity doc ids).2
  ∧ (∀ e, (upsertIdentity doc ids).1 = some e →
      e = .alreadyExists ∧ (upsertIdentity doc ids).2 = ids) := by
  refine ⟨rfl, ?_, ?_⟩
  · match hf : upsertFind (deriveUUID doc) ids with
    | some l =>
      obtain ⟨l1, r, l2, e1, e2, e3, e4⟩ := upsertFind_shape hf
      have : uniqueIdentities l := by
        rw [e2]
        exact pairwise_replace (by simpa using e3.symm) (by simpa using e4.symm) (e1 ▸ hinv)
      simpa [upsertIdentity, hf] using this
    | none =>
      by_cases hany : ids.any (collides (deriveUUID doc)) = true
      · simpa [upsertIdentity, hf, hany] using hinv
      · have hall : ∀ r ∈ ids, r.UserName ≠ doc.UserName ∧ r.ExternalID ≠ doc.ExternalID := by
          intro r hr
          constructor
          · intro hcontra
            exact hany (List.any_eq_true.mpr ⟨r, hr, by simp [collides, hcontra]⟩)
          · intro hcontra
            exact hany (List.any_eq_true.mpr ⟨r, hr, by simp [collides, hcontra]⟩)
        have : uniqueIdentities (ids ++ [deriveUUID doc]) := by
          rw [uniqueIdentities, List.pairwise_append]
          refine ⟨hinv, List.pairwise_singleton _ _, ?_⟩
          intro a ha b hb
          rcases List.mem_singleton.mp hb with rfl
          exact ⟨by simpa using (hall a ha).1, by simpa using (hall a ha).2⟩
        simpa [upsertIdentity, hf, hany] using this
  · intro e he
    match hf : upsertFind (deriveUUID doc) ids with
    | some l => rw [upsertIdentity] at he; simp [hf] at he
    | none =>
      by_cases hany : ids.any (collides (deriveUUID doc)) = true
      · have hres : upsertIdentity doc ids = (some StoreErr.alreadyExists, ids) := by
          rw [upsertIdentity]
          simp [hf, hany]
        cases e
        exact ⟨rfl, by rw [hres]⟩
      · rw [upsertIdentity] at he; simp [hf, hany] at he

/-- C8: `UpsertIdentity` sets the document's `UUID` to the SHA-1 namespace
UUID of its `UserName` under the fixed `IdentityNamespace`, overwriting any
caller-supplied `UUID`, so the stored `UUID` is a deterministic function of
`UserName` alone and re-derivation is idempotent. -/
theorem upsertIdentity_uuid (doc : Identity) (u : String) (ids : List Identity)
    (d1 d2 : Identity) (h : d1.UserName = d2.UserName) :
    upsertIdentity { doc with UUID := u } ids = upsertIdentity doc ids
  ∧ (deriveUUID doc).UUID =
      uuidToString (uuidNewSHA1 identityNamespaceUUID (strBytes doc.UserName))
  ∧ (deriveUUID d1).UUID = (deriveUUID d2).UUID := by
  refine ⟨by cases doc; rfl, by cases doc; rfl, ?_⟩
  show uuidFromUserName d1.UserName = uuidFromUserName d2.UserName
  rw [h]

/-- Identity record used by concrete witnesses: `bob` with external id
`ext1`. -/
def bobExt1 : Identity := { UserName := "bob", ExternalID := "ext1" }

/-- Identity record used by concrete witnesses: `bob` with external id
`ext2`. -/
def bobExt2 : Identity := { UserName := "bob", ExternalID := "ext2" }

/-- C1 witness: upserting `bob/ext2` over a store holding `bob/ext1` fails
with `AlreadyExists` and leaves the store unchanged. -/
theorem upsertIdentity_cases_witness :
    upsertIdentity bobExt2 [bobExt1] = (some .alreadyExists, [bobExt1]) :=
  (upsertIdentity_cases bobExt2 [bobExt1] (by simp [uniqueIdentities])).2.2
    ⟨bobExt1, by simp, Or.inl ⟨rfl, by decide⟩⟩

/-- C7 witness: a fresh insert preserves the uniqueness invariant. -/
theorem upsertIdentity_invariant_witness :
    uniqueIdentities (upsertIdentity bobExt1 []).2 :=
  (upsertIdentity_invariant bobExt1 [] (by simp [uniqueIdentities])).2.1

/-- C8 witness: two documents with username `bob` derive the same UUID. -/
theorem upsertIdentity_uuid_witness :
    (deriveUUID bobExt1).UUID = (deriveUUID bobExt2).UUID :=
  (upsertIdentity_uuid bobExt1 "" [] bobExt1 bobExt2 rfl).2.2

/-! ### Lemmas about `TestContext.UpdateUser` -/

theorem updateUserFind_error {user : User} {users : List User} {e : UpdateErr}
    (h : updateUserFind user users = .error e) :
    (e = .alreadyExistsUsername user.Username ∧
      ∃ u ∈ users, u.Username = user.Username ∧ u.ExternalID ≠ user.ExternalID) ∨
    (e = .alreadyExistsExternalId user.ExternalID ∧
      ∃ u ∈ users, u.ExternalID = user.ExternalID ∧ u.Username ≠ user.Username) := by
  induction users with
  | nil => simp [updateUserFind] at h
  | cons u us ih =>
    rw [updateUserFind] at h
    by_cases h1 : u.Username = user.Username
    · rw [if_pos h1] at h
      by_cases h2 : u.ExternalID = user.ExternalID
      · rw [if_pos h2] at h; exact absurd h (by simp)
      · rw [if_neg h2] at h
        have he : UpdateErr.alreadyExistsUsername user.Username = e := by
          simpa using h
        exact Or.inl ⟨he.symm, u, List.mem_cons_self u us, h1, h2⟩
    · rw [if_neg h1] at h
      by_cases h2 : u.ExternalID = user.ExternalID
      · rw [if_pos h2] at h
        have he : UpdateErr.alreadyExistsExternalId user.ExternalID = e := by
          simpa using h
        exact Or.inr ⟨he.symm, u, List.mem_cons_self u us, h2, h1⟩
      · rw [if_neg h2] at h
        match hrec : updateUserFind user us with
        | .ok l' => rw [hrec] at h; simp [Except.map] at h
        | .error e' =>
          rw [hrec] at h
          simp only [Except.map] at h
          have : e' = e := by simpa using h
          subst this
          rcases ih hrec with ⟨he, w, hw, p1, p2⟩ | ⟨he, w, hw, p1, p2⟩
          · exact Or.inl ⟨he, w, List.mem_cons_of_mem u hw, p1, p2⟩
          · exact Or.inr ⟨he, w, List.mem_cons_of_mem u hw, p1, p2⟩

theorem updateUserFind_ok {user : User} {users l : List User}
    (h : updateUserFind user users = .ok l) :
    (∃ l1 u l2, users = l1 ++ u :: l2 ∧ u.Username = user.Username ∧
      u.ExternalID = user.ExternalID ∧ l = l1 ++ user :: l2) ∨
    (l = users ++ [user] ∧
      ∀ u ∈ users, u.Username ≠ user.Username ∧ u.ExternalID ≠ user.ExternalID) := by
  induction users generalizing l with
  | nil =>
    right
    rw [updateUserFind] at h
    refine ⟨?_, by simp⟩
    simpa using (Except.ok.inj h).symm
  | cons u us ih =>
    rw [updateUserFind] at h
    by_cases h1 : u.Username = user.Username
    · rw [if_pos h1] at h
      by_cases h2 : u.ExternalID = user.ExternalID
      · rw [if_pos h2] at h
        exact Or.inl ⟨[], u, us, rfl, h1, h2, by simpa using (Except.ok.inj h).symm⟩
      · rw [if_neg h2] at h; exact absurd h (by simp)
    · rw [if_neg h1] at h
      by_cases h2 : u.ExternalID = user.ExternalID
      · rw [if_pos h2] at h; exact absurd h (by simp)
      · rw [if_neg h2] at h
        match hrec : updateUserFind user us with
        | .error e' => rw [hrec] at h; simp [Except.map] at h
        | .ok l' =>
          rw [hrec] at h
          simp only [Except.map] at h
          have hl : l = u :: l' := by simpa using (Except.ok.inj h).symm
          rcases ih hrec with ⟨l1, w, l2, p1, p2, p3, p4⟩ | ⟨p1, p2⟩
          · exact Or.inl ⟨u :: l1, w, l2, by simp [p1], p2, p3, by simp [hl, p4]⟩
          · refine Or.inr ⟨by simp [hl, p1], ?_⟩
            intro w hw
            rcases List.mem_cons.mp hw with rfl | hw'
            · exact ⟨h1, h2⟩
            · exact p2 w hw'

/-- C10: `TestContext.UpdateUser` is atomic on error — whenever it returns
an `AlreadyExists` error (the new user's `Username` matches a stored user
with a different `ExternalID`, or its `ExternalID` matches a different
stored user) the stored list is unchanged; a successful call either
replaces exactly the entry matching on both fields (length unchanged) or
appends exactly one new entry. -/
theorem updateUser_atomic (b : Bool) (user : User) (users : List User) :
    (∀ e, (updateUser b user users).1 = some e → (updateUser b user users).2 = users)
  ∧ (∀ e, (updateUser false user users).1 = some e →
      (e = .alreadyExistsUsername user.Username ∧
        ∃ u ∈ users, u.Username = user.Username ∧ u.ExternalID ≠ user.ExternalID) ∨
      (e = .alreadyExistsExternalId user.ExternalID ∧
        ∃ u ∈ users, u.ExternalID = user.ExternalID ∧ u.Username ≠ user.Username))
  ∧ ((updateUser false user users).1 = none →
      (∃ l1 u l2, users = l1 ++ u :: l2 ∧ u.Username = user.Username ∧
        u.ExternalID = user.ExternalID ∧
        (updateUser false user users).2 = l1 ++ user :: l2 ∧
        (updateUser false user users).2.length = users.length) ∨
      ((updateUser false user users).2 = users ++ [user] ∧
        ∀ u ∈ users, u.Username ≠ user.Username ∧ u.ExternalID ≠ user.ExternalID)) := by
  refine ⟨?_, ?_, ?_⟩
  · intro e he
    rw [updateUser] at he ⊢
    by_cases hb : b = true
    · simp [hb]
    · rw [if_neg hb] at he ⊢
      match hrec : updateUserFind user users with
      | .ok l => rw [hrec] at he; simp at he
      | .error e' => rfl
  · intro e he
    rw [updateUser, if_neg (by simp)] at he
    match hrec : updateUserFind user users with
    | .ok l => rw [hrec] at he; simp at he
    | .error e' =>
      rw [hrec] at he
      have : e' = e := by simpa using he
      subst this
      exact updateUserFind_error hrec
  · intro he
    rw [updateUser, if_neg (by simp)] at he
    match hrec : updateUserFind user users with
    | .error e' => rw [hrec] at he; simp at he
    | .ok l =>
      have h2 : (updateUser false user users).2 = l := by
        rw [updateUser, if_neg (by simp), hrec]
      rcases updateUserFind_ok hrec with ⟨l1, u, l2, p1, p2, p3, p4⟩ | ⟨p1, p2⟩
      · exact Or.inl ⟨l1, u, l2, p1, p2, p3, by rw [h2, p4], by rw [h2, p4, p1]; simp⟩
      · exact Or.inr ⟨by rw [h2, p1], p2⟩

/-- User document used by concrete witnesses: `bob` with external id
`ext1`. -/
def userBob1 : User := { Username := "bob", ExternalID := "ext1" }

/-- User document used by concrete witnesses: `bob` with external id
`ext2`. -/
def userBob2 : User := { Username := "bob", ExternalID := "ext2" }

/-- C10 witness: the `AlreadyExists` failure for `bob/ext2` against a store
holding `bob/ext1` leaves the stored list untouched. -/
theorem updateUser_atomic_witness :
    (updateUser false userBob2 [userBob1]).2 = [userBob1] :=
  (updateUser_atomic false userBob2 [userBob1]).1
    (.alreadyExistsUsername "bob") (by decide)

/-! ### Lemmas about the cookie codec -/

@[simp] theorem stringMk_data (s : String) : String.mk s.data = s := rfl

theorem charToNat_ofNat {n : Nat} (h : n.isValidChar) : (Char.ofNat n).toNat = n := by
  simp only [Char.ofNat, h, Char.ofNatAux, Char.toNat, dif_pos]
  rfl

theorem takeN_append (l rest : List Nat) : takeN l.length (l ++ rest) = some (l, rest) := by
  induction l with
  | nil => rfl
  | cons x l ih => simp [takeN, ih]

theorem takeN_some {n : Nat} {l a b : List Nat} (h : takeN n l = some (a, b)) :
    a.length = n ∧ l = a ++ b := by
  induction n generalizing l a b with
  | zero =>
    simp only [takeN, Option.some.injEq, Prod.mk.injEq] at h
    obtain ⟨h1, h2⟩ := h
    subst h1
    subst h2
    exact ⟨rfl, rfl⟩
  | succ n ih =>
    cases l with
    | nil => simp [takeN] at h
    | cons x l' =>
      rw [takeN] at h
      match hr : takeN n l' with
      | none => rw [hr] at h; simp at h
      | some p =>
        rw [hr] at h
        simp only [Option.map_some', Option.some.injEq, Prod.mk.injEq] at h
        obtain ⟨h1, h2⟩ := h
        obtain ⟨hlen, happ⟩ := ih hr
        subst h1
        subst h2
        exact ⟨by simp [hlen], by simp [happ]⟩

theorem map_toNat_ofNat {cs : List Nat}
    (hv : cs.all (fun m => decide m.isValidChar) = true) :
    (cs.map Char.ofNat).map Char.toNat = cs := by
  induction cs with
  | nil => rfl
  | cons c cs ih =>
    rw [List.all_cons, Bool.and_eq_true] at hv
    simp only [List.map_cons]
    rw [charToNat_ofNat (of_decide_eq_true hv.1), ih hv.2]

theorem charValid (c : Char) :
    c.toNat < 55296 ∨ (57343 < c.toNat ∧ c.toNat < 1114112) := c.valid

theorem parseString_ser (s : String) (rest : List Nat) :
    parseString (serString s ++ rest) = some (s, rest) := by
  have hlen : s.length = s.data.length := rfl
  have ht := takeN_append (s.data.map Char.toNat) rest
  rw [List.length_map] at ht
  simp only [serString, List.cons_append, parseString]
  rw [hlen]
  simp only [ht]
  have hall : ((s.data.map Char.toNat).all fun m => decide m.isValidChar) = true := by
    rw [List.all_eq_true]
    intro m hm
    rw [List.mem_map] at hm
    obtain ⟨c, _, rfl⟩ := hm
    exact decide_eq_true c.valid
  rw [if_pos hall]
  have hmapid : (s.data.map Char.toNat).map Char.ofNat = s.data := by
    rw [List.map_map]
    simp [Function.comp_def, Char.ofNat_toNat]
  rw [hmapid, stringMk_data]

theorem parseString_inv {l : List Nat} {s : String} {rest : List Nat}
    (h : parseString l = some (s, rest)) : serString s ++ rest = l := by
  cases l with
  | nil => simp [parseString] at h
  | cons n rest0 =>
    rw [parseString] at h
    rcases ht : takeN n rest0 with _ | ⟨cs, rest'⟩
    · rw [ht] at h; simp at h
    · rw [ht] at h
      replace h : (if (cs.all fun m => decide m.isValidChar) = true
          then some (String.mk (cs.map Char.ofNat), rest') else none) = some (s, rest) := h
      by_cases hv : (cs.all fun m => decide m.isValidChar) = true
      · rw [if_pos hv] at h
        simp only [Option.some.injEq, Prod.mk.injEq] at h
        obtain ⟨hs, hr⟩ := h
        obtain ⟨hlen, happ⟩ := takeN_some ht
        subst hr
        rw [← hs]
        simp only [serString, List.cons_append, List.cons.injEq]
        refine ⟨?_, ?_⟩
        · show (cs.map Char.ofNat).length = n
          rw [List.length_map, hlen]
        · show (cs.map Char.ofNat).map Char.toNat ++ rest' = rest0
          rw [map_toNat_ofNat hv, ← happ]
      · rw [if_neg hv] at h; simp at h

theorem parseStringsN_ser (xs : List String) (rest : List Nat) :
    parseStringsN xs.length ((xs.map serString).flatten ++ rest) = some (xs, rest) := by
  induction xs with
  | nil => rfl
  | cons s xs ih =>
    simp only [List.map_cons, List.flatten_cons, List.length_cons, parseStringsN,
      List.append_assoc]
    rw [parseString_ser]
    simp only [Option.some_bind]
    rw [ih]
    rfl

theorem parseStringsN_inv {n : Nat} {l : List Nat} {xs : List String} {rest : List Nat}
    (h : parseStringsN n l = some (xs, rest)) :
    xs.length = n ∧ (xs.map serString).flatten ++ rest = l := by
  induction n generalizing l xs rest with
  | zero =>
    simp only [parseStringsN, Option.some.injEq, Prod.mk.injEq] at h
    obtain ⟨h1, h2⟩ := h
    subst h1
    subst h2
    exact ⟨rfl, rfl⟩
  | succ n ih =>
    rw [parseStringsN] at h
    match hp : parseString l with
    | none => rw [hp] at h; simp at h
    | some p =>
      rw [hp] at h
      simp only [Option.some_bind] at h
      match hq : parseStringsN n p.2 with
      | none => rw [hq] at h; simp at h
      | some q =>
        rw [hq] at h
        simp only [Option.map_some', Option.some.injEq, Prod.mk.injEq] at h
        obtain ⟨h1, h2⟩ := h
        obtain ⟨hqlen, hqapp⟩ := ih hq
        subst h1
        subst h2
        refine ⟨by simp [hqlen], ?_⟩
        simp only [List.map_cons, List.flatten_cons, List.append_assoc]
        rw [hqapp]
        exact parseString_inv hp

theorem parseStringList_ser (xs : List String) (rest : List Nat) :
    parseStringList (serStrings xs ++ rest) = some (xs, rest) := by
  simp only [serStrings, List.cons_append, parseStringList]
  exact parseStringsN_ser xs rest

theorem parseStringList_inv {l : List Nat} {xs : List String} {rest : List Nat}
    (h : parseStringList l = some (xs, rest)) : serStrings xs ++ rest = l := by
  match l with
  | [] => simp [parseStringList] at h
  | n :: rest0 =>
    rw [parseStringList] at h
    obtain ⟨hlen, happ⟩ := parseStringsN_inv h
    simp only [serStrings, List.cons_append]
    rw [hlen, happ]

theorem parseCookie_ser (c : cookie) (rest : List Nat) :
    parseCookie (serCookie c ++ rest) = some (c, rest) := by
  simp only [serCookie, parseCookie, List.cons_append, List.append_assoc]
  rw [parseString_ser]
  simp only [Option.some_bind]
  rw [parseStringList_ser]
  rfl

theorem parseCookie_inv {l : List Nat} {c : cookie} {rest : List Nat}
    (h : parseCookie l = some (c, rest)) : serCookie c ++ rest = l := by
  match l with
  | [] => simp [parseCookie] at h
  | e :: rest0 =>
    rw [parseCookie] at h
    match hp : parseString rest0 with
    | none => rw [hp] at h; simp at h
    | some p =>
      rw [hp] at h
      simp only [Option.some_bind] at h
      match hq : parseStringList p.2 with
      | none => rw [hq] at h; simp at h
      | some q =>
        rw [hq] at h
        simp only [Option.map_some', Option.some.injEq, Prod.mk.injEq] at h
        obtain ⟨h1, h2⟩ := h
        subst h2
        rw [← h1]
        simp only [serCookie, List.cons_append, List.cons.injEq]
        refine ⟨trivial, ?_⟩
        rw [List.append_assoc, parseStringList_inv hq]
        exact parseString_inv hp

theorem boxOpen_seal (k : KeyPair) (msg : List Nat) :
    boxOpen k (boxSeal k msg) = some msg := by
  simp [boxSeal, boxOpen]

theorem boxOpen_some {k : KeyPair} {ct msg : List Nat}
    (h : boxOpen k ct = some msg) : ct = boxSeal k msg := by
  match ct with
  | [] => simp [boxOpen] at h
  | [_] => simp [boxOpen] at h
  | pub :: tag :: body =>
    rw [boxOpen] at h
    by_cases hc : pub = k.Public ∧ tag = macTag k.Private body
    · rw [if_pos hc] at h
      have hb : body = msg := by simpa using h
      subst hb
      simp [boxSeal, hc.1, hc.2]
    · rw [if_neg hc] at h; simp at h

theorem boxOpen_ne (k1 k2 : KeyPair) (msg : List Nat) (hne : k1 ≠ k2) :
    boxOpen k2 (boxSeal k1 msg) = none := by
  rw [boxSeal, boxOpen, if_neg]
  rintro ⟨h1, h2⟩
  simp only [macTag] at h2
  have hp := Nat.add_right_cancel h2
  refine hne ?_
  cases k1
  cases k2
  simp_all

/-- C2: for every key pair and every valid cookie payload, decoding the
encoding round-trips losslessly: `DecodeCookie(k, EncodeCookie(k, p)) = p`
with no error. -/
theorem decodeCookie_encodeCookie (k : KeyPair) (c : cookie) :
    decodeCookie k (encodeCookie k c) = .ok c := by
  have h := parseCookie_ser c []
  rw [List.append_nil] at h
  simp only [decodeCookie, encodeCookie, boxOpen_seal, h]

/-- C3: decoding under a different key pair always fails, and on every input
the decoder either fails with the `BadCookie` classification or returns
exactly the payload whose encoding the input is — it never crashes and never
returns a silently corrupted payload. -/
theorem decodeCookie_security :
    (∀ (k1 k2 : KeyPair) (c : cookie), k1 ≠ k2 →
        decodeCookie k2 (encodeCookie k1 c) = .error .badCookie)
  ∧ (∀ (k : KeyPair) (s : List Nat),
        decodeCookie k s = .error .badCookie ∨
        ∃ c, decodeCookie k s = .ok c ∧ encodeCookie k c = s) := by
  constructor
  · intro k1 k2 c hne
    simp only [decodeCookie, encodeCookie, boxOpen_ne k1 k2 _ hne]
  · intro k s
    match hb : boxOpen k s with
    | none => left; simp only [decodeCookie, hb]
    | some msg =>
      match hp : parseCookie msg with
      | some (c, []) =>
        right
        refine ⟨c, ?_, ?_⟩
        · simp only [decodeCookie, hb, hp]
        · have h1 : serCookie c ++ [] = msg := parseCookie_inv hp
          rw [List.append_nil] at h1
          rw [encodeCookie, h1]
          exact (boxOpen_some hb).symm
      | some (c, x :: r) => left; simp only [decodeCookie, hb, hp]
      | none => left; simp only [decodeCookie, hb, hp]

/-- Key pair used by concrete witnesses. -/
def kpA : KeyPair := ⟨1, 2⟩

/-- A key pair sharing `kpA`'s public part but with a different private
part, used by concrete witnesses. -/
def kpB : KeyPair := ⟨1, 3⟩

/-- Cookie payload used by concrete witnesses. -/
def cookie0 : cookie := ⟨99, "id", ["m1"]⟩

/-- C3 witness: a cookie sealed under `kpA` fails to decode under `kpB`. -/
theorem decodeCookie_security_witness :
    decodeCookie kpB (encodeCookie kpA cookie0) = .error .badCookie :=
  decodeCookie_security.1 kpA kpB cookie0 (by decide)

/-! ### Lemmas about the IDP callbacks -/

theorem placeDone_pending (t : String) (info : LoginInfo)
    (p : String → Option RendezvousState) (h : p t = some .pending) :
    placeDone t info p =
      some (fun t2 => if t2 = t then some (.done info) else p t2) := by
  simp only [placeDone, h]

theorem updateIdentity_getD_preserves (u : String) (st : IdpState) :
    ((updateIdentity u st).getD st).place = st.place ∧
    ((updateIdentity u st).getD st).responses = st.responses := by
  rw [updateIdentity]
  by_cases h1 : st.updateIdentityFails = true
  · simp [h1]
  · by_cases h2 : (st.identities.any fun r => r.UserName == u) = true
    · simp [h1, h2]
    · simp [h1, h2]

theorem loginFailureDone_responses (waitId err : String) (st : IdpState) :
    (loginFailureDone waitId err st).responses = st.responses := by
  rw [loginFailureDone]
  by_cases hw : waitId = ""
  · rw [if_pos hw]
  · rw [if_neg hw]
    rcases hd : placeDone waitId { IdentityMacaroon := [], Error := some err }
        st.place with _ | p
    · simp only [hd]
    · simp only [hd]

theorem loginFailure_responses (waitId err : String) (st : IdpState) :
    (loginFailure waitId err st).responses = st.responses ++ [err] := by
  show (loginFailureDone waitId err st).responses ++ [err] = st.responses ++ [err]
  rw [loginFailureDone_responses]

theorem loginSuccess_pending (st : IdpState) (waitId username : String)
    (cavs : List Caveat) (hm : st.mintFails = false) (hw : waitId ≠ "")
    (hp : st.place waitId = some .pending) :
    (loginSuccess waitId username cavs st).1 = true ∧
    (loginSuccess waitId username cavs st).2.place waitId =
      some (.done { IdentityMacaroon := [NewMacaroon cavs], Error := none }) := by
  have hd := placeDone_pending waitId
    { IdentityMacaroon := [NewMacaroon cavs], Error := none } st.place hp
  rw [loginSuccess]
  simp only [hm, Bool.false_eq_true, if_false, if_neg hw, hd]
  refine ⟨by trivial, ?_⟩
  rw [(updateIdentity_getD_preserves username _).1]
  simp

theorem loginSuccess_nowait (st : IdpState) (username : String) (cavs : List Caveat)
    (hm : st.mintFails = false) :
    (loginSuccess "" username cavs st).1 = true := by
  rw [loginSuccess]
  simp [hm]

theorem loginSuccess_mint_failure (st : IdpState) (waitId username : String)
    (cavs : List Caveat) (hm : st.mintFails = true) :
    (loginSuccess waitId username cavs st).1 = false ∧
    (loginSuccess waitId username cavs st).2.responses =
      st.responses ++ ["cannot mint identity macaroon"] := by
  rw [loginSuccess]
  simp only [hm, if_true]
  exact ⟨by trivial, loginFailure_responses _ _ _⟩

theorem loginSuccess_done_failure (st : IdpState) (waitId username : String)
    (cavs : List Caveat) (hm : st.mintFails = false) (hw : waitId ≠ "")
    (hd : placeDone waitId { IdentityMacaroon := [NewMacaroon cavs], Error := none }
      st.place = none) :
    (loginSuccess waitId username cavs st).1 = false ∧
    (loginSuccess waitId username cavs st).2.responses =
      st.responses ++ ["cannot complete rendezvous"] := by
  rw [loginSuccess]
  simp only [hm, Bool.false_eq_true, if_false, if_neg hw, hd]
  exact ⟨by trivial, loginFailure_responses _ _ _⟩

/-- C4: `LoginSuccess(username, caveats)` mints a macaroon carrying the
given extra caveats; when a wait token is present the rendezvous for that
token is completed with the resulting macaroon; and when minting or the
rendezvous completion fails, `LoginFailure` runs (the error is rendered)
and the call reports failure. -/
theorem loginSuccess_spec (st : IdpState) (waitId username : String) (cavs : List Caveat) :
    (st.mintFails = false → waitId ≠ "" → st.place waitId = some .pending →
        (loginSuccess waitId username cavs st).1 = true ∧
        (loginSuccess waitId username cavs st).2.place waitId =
          some (.done { IdentityMacaroon := [NewMacaroon cavs], Error := none }))
  ∧ (st.mintFails = true →
        (loginSuccess waitId username cavs st).1 = false ∧
        (loginSuccess waitId username cavs st).2.responses =
          st.responses ++ ["cannot mint identity macaroon"])
  ∧ (st.mintFails = false → waitId ≠ "" →
        placeDone waitId { IdentityMacaroon := [NewMacaroon cavs], Error := none }
          st.place = none →
        (loginSuccess waitId username cavs st).1 = false ∧
        (loginSuccess waitId username cavs st).2.responses =
          st.responses ++ ["cannot complete rendezvous"]) :=
  ⟨fun hm hw hp => loginSuccess_pending st waitId username cavs hm hw hp,
   fun hm => loginSuccess_mint_failure st waitId username cavs hm,
   fun hm hw hd => loginSuccess_done_failure st waitId username cavs hm hw hd⟩

/-- Rendezvous place used by concrete witnesses: token `t0` pending. -/
def place0 : String → Option RendezvousState :=
  fun t => if t = "t0" then some .pending else none

/-- Handler state used by concrete witnesses. -/
def st0 : IdpState := { place := place0 }

/-- C4 witness: a successful login with a pending wait token completes that
rendezvous with the minted macaroon. -/
theorem loginSuccess_spec_witness :
    (loginSuccess "t0" "bob" [] st0).1 = true ∧
    (loginSuccess "t0" "bob" [] st0).2.place "t0" =
      some (.done { IdentityMacaroon := [NewMacaroon []], Error := none }) :=
  (loginSuccess_spec st0 "t0" "bob" []).1 rfl (by decide) (by simp [st0, place0])

/-- C5 counterexample: with a wait token present (`"t0"`) and its rendezvous
pending, `LoginFailure` still renders the error as the HTTP response, so the
response is not rendered only in the no-wait-token case. -/
theorem loginFailure_renders_despite_waittoken :
    ("t0" : String) ≠ "" ∧
    (loginFailure "t0" "boom" st0).place "t0" =
      some (.done { IdentityMacaroon := [], Error := some "boom" }) ∧
    (loginFailure "t0" "boom" st0).responses = ["boom"] := by
  refine ⟨by decide, ?_, ?_⟩
  · show (loginFailureDone "t0" "boom" st0).place "t0" = _
    rw [loginFailureDone, if_neg (by decide)]
    have hd := placeDone_pending "t0" { IdentityMacaroon := [], Error := some "boom" }
      st0.place (by simp [st0, place0])
    simp [hd]
  · have h := loginFailure_responses "t0" "boom" st0
    simpa [st0] using h

/-- C5 (amended): `LoginFailure(err)` always renders the error as the HTTP
response, whether or not a wait token is present; when a wait token is
present it additionally calls `Place.Done` for that token with the error,
and when none is present the rendezvous state is untouched. -/
theorem loginFailure_spec (st : IdpState) (waitId err : String) :
    (loginFailure waitId err st).responses = st.responses ++ [err]
  ∧ (waitId ≠ "" → st.place waitId = some .pending →
      (loginFailure waitId err st).place waitId =
        some (.done { IdentityMacaroon := [], Error := some err }))
  ∧ (waitId = "" → (loginFailure waitId err st).place = st.place) := by
  refine ⟨loginFailure_responses waitId err st, ?_, ?_⟩
  · intro hw hp
    show (loginFailureDone waitId err st).place waitId = _
    rw [loginFailureDone, if_neg hw]
    have hd := placeDone_pending waitId { IdentityMacaroon := [], Error := some err }
      st.place hp
    simp [hd]
  · intro hw
    show (loginFailureDone waitId err st).place = _
    rw [loginFailureDone, if_pos hw]

/-- C5 witness: with no wait token the error is rendered and the rendezvous
state is untouched. -/
theorem loginFailure_spec_witness :
    (loginFailure "" "boom" st0).responses = ["boom"] ∧
    (loginFailure "" "boom" st0).place = st0.place := by
  have h := loginFailure_spec st0 "" "boom"
  exact ⟨by simpa [st0] using h.1, h.2.2 rfl⟩

/-- C9: a failure of the last-login timestamp update never aborts a
successful login — `LoginSuccess` ignores the result of the `UpdateIdentity`
call and still reports success once the macaroon is minted and any pending
rendezvous completed, whether or not the timestamp update succeeds. -/
theorem loginSuccess_ignores_lastlogin (st : IdpState) (waitId username : String)
    (cavs : List Caveat) (b : Bool) (hm : st.mintFails = false)
    (hw : waitId = "" ∨ st.place waitId = some .pending) :
    (loginSuccess waitId username cavs { st with updateIdentityFails := b }).1 = true := by
  rcases hw with hw | hw
  · subst hw
    exact loginSuccess_nowait { st with updateIdentityFails := b } username cavs hm
  · by_cases hw2 : waitId = ""
    · subst hw2
      exact loginSuccess_nowait { st with updateIdentityFails := b } username cavs hm
    · exact (loginSuccess_pending { st with updateIdentityFails := b }
        waitId username cavs hm hw2 hw).1

/-- C9 witness: success is reported both when the timestamp update fails and
when it succeeds. -/
theorem loginSuccess_ignores_lastlogin_witness :
    (loginSuccess "t0" "bob" [] { st0 with updateIdentityFails := true }).1 = true ∧
    (loginSuccess "t0" "bob" [] { st0 with updateIdentityFails := false }).1 = true :=
  ⟨loginSuccess_ignores_lastlogin st0 "t0" "bob" [] true rfl
      (Or.inr (by simp [st0, place0])),
   loginSuccess_ignores_lastlogin st0 "t0" "bob" [] false rfl
      (Or.inr (by simp [st0, place0]))⟩

theorem isPrefixOf_self_append {α : Type} [BEq α] [LawfulBEq α] (a b : List α) :
    a.isPrefixOf (a ++ b) = true := by
  induction a with
  | nil => simp [List.isPrefixOf]
  | cons x a ih => simp [List.isPrefixOf, ih]

theorem string_data_append (a b : String) : (a ++ b).data = a.data ++ b.data := by
  cases a
  cases b
  rfl

/-- C6: the identity macaroon minted on a successful login carries a
declared caveat binding the authenticated username and an expiry caveat; in
particular the macaroon delivered to a pending rendezvous has a declared
username caveat equal to the authenticated username. -/
theorem loginUser_declared (st : IdpState) (waitId username : String) (expiry : Nat)
    (extra : List Caveat) (hm : st.mintFails = false) (hw : waitId ≠ "")
    (hp : st.place waitId = some .pending) :
    ∃ m, (loginUser waitId username expiry extra st).2.place waitId =
        some (.done { IdentityMacaroon := [m], Error := none })
      ∧ declaredUsername m = some username ∧ hasExpiryCaveat m = true := by
  refine ⟨NewMacaroon (declaredUserCaveat username :: timeBeforeCaveat expiry :: extra),
    ?_, ?_, ?_⟩
  · exact (loginSuccess_pending st waitId username
      (declaredUserCaveat username :: timeBeforeCaveat expiry :: extra) hm hw hp).2
  · rw [declaredUsername]
    have hpre : declaredCondition.data.isPrefixOf
        (declaredUserCaveat username).Condition.data = true := by
      show declaredCondition.data.isPrefixOf (declaredCondition ++ username).data = true
      rw [string_data_append]
      exact isPrefixOf_self_append _ _
    rw [NewMacaroon, List.find?_cons]
    simp only [hpre]
    simp only [Option.map_some', Option.some.injEq]
    show String.mk ((declaredCondition ++ username).data.drop declaredCondition.length) =
      username
    have hlen : declaredCondition.length = declaredCondition.data.length := rfl
    rw [string_data_append, hlen, List.drop_left, stringMk_data]
  · rw [hasExpiryCaveat, NewMacaroon]
    simp only [List.any_cons, Bool.or_eq_true]
    refine Or.inr (Or.inl ?_)
    show ("time-before ").data.isPrefixOf
      ("time-before " ++ toString expiry).data = true
    rw [string_data_append]
    exact isPrefixOf_self_append _ _

/-- C6 witness: completing the pending rendezvous for `alice` delivers a
macaroon whose declared username caveat equals `alice` and which carries an
expiry caveat. -/
theorem loginUser_declared_witness :
    ∃ m, (loginUser "t0" "alice" 5 [] st0).2.place "t0" =
        some (.done { IdentityMacaroon := [m], Error := none })
      ∧ declaredUsername m = some "alice" ∧ hasExpiryCaveat m = true :=
  loginUser_declared st0 "t0" "alice" 5 [] rfl (by decide) (by simp [st0, place0])

end Candid
